import Mathlib

/-!
Verification of the call-report generator (`src/app.py`, `calculate_report`).

The pandas dataframe pipeline is shallowly embedded as pure functions over
lists of records:

* a raw dataframe is a list of column names plus a list of `RawRow`s; text
  columns (`bot`, `mobile_number`, `outcome`, `recording_url`) are modelled as
  `Option String` (string or null, matching CSV ingestion with
  `dtype={mobile_number: str}`), while `contacted` and `date` are `Cell`s
  (null, text or number), since the source coerces them;
* `pd.to_datetime(..., errors := coerce)` is abstracted: a numeric cell stands
  for a parseable timestamp (its value is the timestamp, an integer), while
  null / textual cells stand for unparseable values (NaT).  Only parse
  success/failure and the order of timestamps matter to the claims;
* `pd.to_numeric(..., errors := coerce)` parses numeric cells and numeric
  strings, everything else becomes null;
* `sort_values(date)` is an insertion sort by date;
  `groupby([bot, mobile_number], as_index=False).last()` keeps pandas
  semantics: null group keys are dropped (`dropna=True` default), group keys
  are emitted sorted (`sort=True` default), and `last()` takes, per column,
  the last non-null entry of the group (`skipna=True` default);
* Python `round(x, 2)` is modelled on rationals as round-half-to-even at the
  second decimal place;
* in-place mutation of the caller's dataframe is modelled by returning the
  caller-visible dataframe alongside the result: `calculateReport df` returns
  the final state of the argument dataframe as its first component.  The
  source mutates the caller's frame at lines 7 (`outcome`) and 14 (`date`);
  line 15 (`df = df.dropna(...)`) rebinds the local name to a fresh frame, so
  the `contacted` / `bot` / `recording_url` coercions of lines 17-21 act on
  that fresh frame only.
-/

namespace CallReport

/-- A raw dataframe cell for the coercible columns: null (NaN), text, or a
number.  After `pd.to_datetime` the `date` column holds `.num t` (a parsed
timestamp) or `.null` (NaT). -/
inductive Cell where
  | null : Cell
  | str : String → Cell
  | num : Int → Cell
deriving DecidableEq, Repr

/-- One raw input row (one call attempt), with the six required columns.  A
`Df` additionally records which columns are present; field values of absent
columns are never read by the embedded code. -/
structure RawRow where
  bot : Option String
  mobile_number : Option String
  outcome : Option String
  contacted : Cell
  date : Cell
  recording_url : Option String
deriving DecidableEq, Repr

/-- A raw dataframe: the set of column names present, plus the rows. -/
structure Df where
  cols : List String
  rows : List RawRow
deriving DecidableEq, Repr

/-- The required columns, in the order the source lists them (line 8). -/
def requiredCols : List String :=
  ["bot", "mobile_number", "outcome", "contacted", "date", "recording_url"]

/-- Abstraction of `pd.to_datetime(c, errors=coerce)` on one cell: numeric
cells are the parseable timestamps, everything else is NaT. -/
def parseDateCell : Cell → Option Int
  | .num n => some n
  | _ => none

/-- The coerced `date` column cell: parsed timestamp, or NaT (line 14). -/
def coerceDateCell (c : Cell) : Cell :=
  match parseDateCell c with
  | some t => .num t
  | none => .null

/-- Abstraction of `pd.to_numeric(c, errors=coerce)` on one cell. -/
def parseIntCell : Cell → Option Int
  | .num n => some n
  | .str s => s.toInt?
  | .null => none

/-- `str.strip().str.lower()` on one string (line 7). -/
def normStr (s : String) : String := s.trim.toLower

/-- Line 7: `df[outcome] = df[outcome].str.strip().str.lower()` (null cells
stay null under the `.str` accessor). -/
def step7 (rows : List RawRow) : List RawRow :=
  rows.map (fun r => { r with outcome := r.outcome.map normStr })

/-- Line 14: coerce the `date` column of every row. -/
def coerceDates (rows : List RawRow) : List RawRow :=
  rows.map (fun r => { r with date := coerceDateCell r.date })

/-- A normalized attempt row, as it stands after lines 15-21: date parsed
(unparseable rows dropped), `contacted` coerced to an integer defaulting to 0,
null `bot` replaced by the sentinel, `recording_url` null-filled, stringified
and trimmed.  `mobile_number` and `outcome` may still be null. -/
structure NormRow where
  bot : String
  mobile_number : Option String
  outcome : Option String
  contacted : Int
  date : Int
  recording_url : String
deriving DecidableEq, Repr

/-- Lines 15-21 applied to rows whose `outcome` and `date` columns have
already been transformed by lines 7 and 14: drop rows with NaT dates
(`dropna(subset=[date])`), coerce `contacted` (`to_numeric
.fillna(0).astype(int)`), fill null `bot` with the sentinel
(`fillna(Blank_Bot_Name)`), and null-fill/strip `recording_url`
(`fillna('').astype(str).str.strip()`). -/
def normRows (rows : List RawRow) : List NormRow :=
  rows.filterMap (fun r =>
    (parseDateCell r.date).map (fun t =>
      { bot := r.bot.getD "Blank_Bot_Name"
        mobile_number := r.mobile_number
        outcome := r.outcome
        contacted := (parseIntCell r.contacted).getD 0
        date := t
        recording_url := (r.recording_url.getD "").trim }))

/-- The whole normalization stage (lines 7, 14-21) from the raw rows. -/
def normalizePipeline (rows : List RawRow) : List NormRow :=
  normRows (coerceDates (step7 rows))

/-- Insert into a list sorted by `le` (helper of the insertion sort used to
model `sort_values`). -/
def insertLe {α : Type} (le : α → α → Bool) (x : α) : List α → List α
  | [] => [x]
  | y :: ys => if le x y then x :: y :: ys else y :: insertLe le x ys

/-- Insertion sort by `le`, used to model `sort_values` / sorted key order. -/
def sortLe {α : Type} (le : α → α → Bool) : List α → List α
  | [] => []
  | x :: xs => insertLe le x (sortLe le xs)

/-- Comparison used by `sort_values(date)` (line 24). -/
def dateLeB (a b : NormRow) : Bool := a.date ≤ b.date

/-- String comparison used by `sorted(...)` (Python sorts strings by code
points, as Lean's order on `String` does). -/
def strLeB (a b : String) : Bool := a ≤ b

/-- Lexicographic comparison on (bot, mobile_number) keys, the order in which
`groupby(..., sort=True)` emits group keys. -/
def keyLeB (a b : String × String) : Bool :=
  if a.1 = b.1 then a.2 ≤ b.2 else a.1 ≤ b.1

/-- The (bot, mobile_number) group key of a normalized row; rows whose
`mobile_number` is null have no key (`groupby` drops null keys). -/
def pairOf (r : NormRow) : Option (String × String) :=
  r.mobile_number.map (fun m => (r.bot, m))

/-- The distinct non-null (bot, mobile_number) keys, in sorted order, as
`groupby([bot, mobile_number])` produces them. -/
def groupKeys (rows : List NormRow) : List (String × String) :=
  sortLe keyLeB (rows.filterMap pairOf).dedup

/-- The rows of one (bot, mobile_number) group, in the date-sorted order used
by the reduction (line 24: `df.sort_values(date)` then `groupby`). -/
def groupRows (rows : List NormRow) (k : String × String) : List NormRow :=
  (sortLe dateLeB rows).filter (fun r => r.bot = k.1 ∧ r.mobile_number = some k.2)

/-- The reduced latest state of one lead: one row per (bot, mobile_number)
key. -/
structure LeadState where
  bot : String
  mobile_number : String
  date : Int
  outcome : Option String
  contacted : Int
  recording_url : String
deriving DecidableEq, Repr

/-- `groupby(...).last()` on one group: per column, the last non-null entry in
the sorted order (`skipna=True` default).  `date`, `contacted` and
`recording_url` are never null after normalization, so they come from the last
row of the group; `outcome` is the last non-null outcome (null if all are). -/
def lastState (k : String × String) (g : List NormRow) : Option LeadState :=
  match g.getLast? with
  | none => none
  | some w =>
    some { bot := k.1
           mobile_number := k.2
           date := w.date
           outcome := (g.filterMap (fun r => r.outcome)).getLast?
           contacted := w.contacted
           recording_url := w.recording_url }

/-- Line 24: `latest_per_lead = df.sort_values(date).groupby([bot,
mobile_number], as_index=False).last()`. -/
def latestPerLead (rows : List NormRow) : List LeadState :=
  (groupKeys rows).filterMap (fun k => lastState k (groupRows rows k))

/-- Line 27: the outcome values excluded from follow-up. -/
def followUpExclude : List (Option String) :=
  [some "assign to live agent", some "converted", some "lost"]

/-- Line 50: `connected_flag = recording_url != ''`. -/
def connectedFlag (ls : LeadState) : Bool := ls.recording_url ≠ ""

/-- Line 51: `not_connected_flag = recording_url == ''`. -/
def notConnectedFlag (ls : LeadState) : Bool := ls.recording_url = ""

/-- Line 52: `converted_flag = outcome == 'converted'`. -/
def convertedFlag (ls : LeadState) : Bool := ls.outcome = some "converted"

/-- Line 53: `lost_flag = outcome == 'lost'`. -/
def lostFlag (ls : LeadState) : Bool := ls.outcome = some "lost"

/-- Line 54: `assigned_to_agent_flag = outcome == 'assign to live agent'`. -/
def assignedFlag (ls : LeadState) : Bool := ls.outcome = some "assign to live agent"

/-- Line 55: `follow_up_flag = ~outcome.isin(follow_up_exclude)` (a null
outcome is not in the set, hence follows up). -/
def followUpFlag (ls : LeadState) : Bool := ¬ ls.outcome ∈ followUpExclude

/-- Order of the `lead_summary` sheet: `sort_values([bot, date],
ascending=[True, False])` (lines 62-64). -/
def leadSummaryLeB (a b : LeadState) : Bool :=
  if a.bot = b.bot then b.date ≤ a.date else a.bot ≤ b.bot

/-- The seven category tables of lines 41-64.  `lead_summary` carries the full
flag vector in the source; here the flags are functions of the kept
`LeadState`, so the sheet is the flagged table itself, re-sorted. -/
structure Sheets where
  connected : List LeadState
  notConnected : List LeadState
  converted : List LeadState
  lost : List LeadState
  assignedToHumanAgent : List LeadState
  followUp : List LeadState
  leadSummary : List LeadState
deriving DecidableEq, Repr

/-- Lines 41-64: the category tables, each a one-predicate filter of
`latest_per_lead` except `lead_summary`. -/
def sheetsByCategory (rows : List NormRow) : Sheets :=
  { connected := (latestPerLead rows).filter connectedFlag
    notConnected := (latestPerLead rows).filter notConnectedFlag
    converted := (latestPerLead rows).filter convertedFlag
    lost := (latestPerLead rows).filter lostFlag
    assignedToHumanAgent := (latestPerLead rows).filter assignedFlag
    followUp := (latestPerLead rows).filter followUpFlag
    leadSummary := sortLe leadSummaryLeB (latestPerLead rows) }

/-- Line 23: `all_bots = sorted(df[bot].unique())`. -/
def allBots (rows : List NormRow) : List String :=
  sortLe strLeB (rows.map (fun r => r.bot)).dedup

/-- Line 67: the attempt-level rows of one bot. -/
def botAttempts (rows : List NormRow) (b : String) : List NormRow :=
  rows.filter (fun r => r.bot = b)

/-- Line 68: `total_attempts = len(bot_df_all)`. -/
def totalAttempts (rows : List NormRow) (b : String) : Nat :=
  (botAttempts rows b).length

/-- Line 69: `unique_leads = bot_df_all[mobile_number].nunique()` (`nunique`
does not count nulls). -/
def uniqueLeads (rows : List NormRow) (b : String) : Nat :=
  ((botAttempts rows b).filterMap (fun r => r.mobile_number)).dedup.length

/-- Line 72: the latest-state rows of one bot. -/
def botLatest (rows : List NormRow) (b : String) : List LeadState :=
  (latestPerLead rows).filter (fun ls => ls.bot = b)

/-- Distinct mobile numbers of the latest-state rows of bot `b` satisfying a
flag (`[...][mobile_number].nunique()`, lines 74-80). -/
def flagCount (rows : List NormRow) (b : String) (flag : LeadState → Bool) : Nat :=
  (((botLatest rows b).filter flag).map (fun ls => ls.mobile_number)).dedup.length

/-- Line 74. -/
def connectedCount (rows : List NormRow) (b : String) : Nat :=
  flagCount rows b connectedFlag

/-- Line 75. -/
def notConnectedCount (rows : List NormRow) (b : String) : Nat :=
  flagCount rows b notConnectedFlag

/-- Line 77. -/
def followUpCount (rows : List NormRow) (b : String) : Nat :=
  flagCount rows b followUpFlag

/-- Line 78. -/
def assignedCount (rows : List NormRow) (b : String) : Nat :=
  flagCount rows b assignedFlag

/-- Line 79. -/
def lostCount (rows : List NormRow) (b : String) : Nat :=
  flagCount rows b lostFlag

/-- Line 80. -/
def convertedCount (rows : List NormRow) (b : String) : Nat :=
  flagCount rows b convertedFlag

/-- Round half to even on an exact rational, the tie rule of Python's
`round`. -/
def roundHalfEven (x : ℚ) : ℤ :=
  if x - ⌊x⌋ < 1/2 then ⌊x⌋
  else if 1/2 < x - ⌊x⌋ then ⌊x⌋ + 1
  else if ⌊x⌋ % 2 = 0 then ⌊x⌋ else ⌊x⌋ + 1

/-- Python `round(x, 2)` modelled on exact rationals: round half to even at
the second decimal.  (CPython rounds the decimal expansion of the nearest
binary double; on exact values the two agree.) -/
def round2 (x : ℚ) : ℚ := (roundHalfEven (x * 100) : ℚ) / 100

/-- Line 70: `avg_attempts = round(total/unique, 2) if unique > 0 else 0.0`. -/
def avgAttempts (rows : List NormRow) (b : String) : ℚ :=
  if 0 < uniqueLeads rows b then
    round2 ((totalAttempts rows b : ℚ) / (uniqueLeads rows b : ℚ))
  else 0

/-- Line 76: `connectivity_perc = round(connected/unique, 2) if unique > 0
else 0.0` (a fraction, not scaled by 100). -/
def connectivityPct (rows : List NormRow) (b : String) : ℚ :=
  if 0 < uniqueLeads rows b then
    round2 ((connectedCount rows b : ℚ) / (uniqueLeads rows b : ℚ))
  else 0

/-- One cell list of the summary matrix: the value of one metric for each bot
of `all_bots`, in column order.  (The source fills the ten metric dictionaries
inside one loop over `all_bots`, lines 66-91; that loop is fused here per
metric.) -/
def metricCells (rows : List NormRow) (f : List NormRow → String → ℚ) :
    List (String × ℚ) :=
  (allBots rows).map (fun b => (b, f rows b))

/-- Lines 29-38 and 66-107: the summary matrix, a list of (metric label,
cells) rows in the fixed order of `report_data`. -/
def summaryReport (rows : List NormRow) : List (String × List (String × ℚ)) :=
  [ ("Unique leads", metricCells rows (fun r b => (uniqueLeads r b : ℚ)))
  , ("Total Attempts", metricCells rows (fun r b => (totalAttempts r b : ℚ)))
  , ("Avg Attempts", metricCells rows avgAttempts)
  , ("Connected", metricCells rows (fun r b => (connectedCount r b : ℚ)))
  , ("Connectivity % :", metricCells rows connectivityPct)
  , ("Not Connected", metricCells rows (fun r b => (notConnectedCount r b : ℚ)))
  , ("Follow Up", metricCells rows (fun r b => (followUpCount r b : ℚ)))
  , ("Assigned to human agent", metricCells rows (fun r b => (assignedCount r b : ℚ)))
  , ("Lost", metricCells rows (fun r b => (lostCount r b : ℚ)))
  , ("Converted", metricCells rows (fun r b => (convertedCount r b : ℚ))) ]

/-- Failure modes of `calculate_report`: the explicit missing-column error of
lines 9-12, and the `KeyError` Python raises at line 7 when the `outcome`
column is absent. -/
inductive CalcError where
  | keyError (col : String)
  | schemaError (missing : List String)
deriving DecidableEq, Repr

/-- The whole of `calculate_report` (lines 6-109).  The first component is the
caller-visible final state of the argument dataframe (the source mutates the
caller's frame at lines 7 and 14 only; line 15 rebinds the local name, so
later coercions stay local).  The second component is the report and the
category sheets, or the failure. -/
def calculateReport (df : Df) :
    Df × Except CalcError (List (String × List (String × ℚ)) × Sheets) :=
  if "outcome" ∈ df.cols then
    let df1 : Df := { df with rows := step7 df.rows }
    let missing := requiredCols.filter (fun c => ¬ c ∈ df.cols)
    if missing = [] then
      let df2 : Df := { df1 with rows := coerceDates df1.rows }
      let nrows := normRows df2.rows
      (df2, .ok (summaryReport nrows, sheetsByCategory nrows))
    else
      (df1, .error (.schemaError missing))
  else
    (df, .error (.keyError "outcome"))

/-- Two attempts of one lead at distinct timestamps; the later attempt has a
null outcome, so `last()` backfills the outcome from the earlier attempt. -/
def c2CexRows : List NormRow :=
  [ { bot := "A", mobile_number := some "p", outcome := some "lost",
      contacted := 1, date := 1, recording_url := "x" }
  , { bot := "A", mobile_number := some "p", outcome := none,
      contacted := 0, date := 2, recording_url := "" } ]

/-- A one-attempt dataset. -/
def w2rows : List NormRow :=
  [ { bot := "A", mobile_number := some "1", outcome := some "lost",
      contacted := 1, date := 5, recording_url := "u" } ]

/-- The latest state of the single lead of `w2rows`. -/
def w2ls : LeadState :=
  { bot := "A", mobile_number := "1", date := 5, outcome := some "lost",
    contacted := 1, recording_url := "u" }

/-- A raw dataset with an empty-string (not null) bot value. -/
def c3CexRaws : List RawRow :=
  [ { bot := some "", mobile_number := some "1", outcome := some "x",
      contacted := .num 1, date := .num 1, recording_url := some "" } ]

/-- A one-attempt normalized dataset with a connected converted lead. -/
def w4rows : List NormRow :=
  [ { bot := "A", mobile_number := some "1", outcome := some "converted",
      contacted := 1, date := 1, recording_url := "url" } ]

/-- The latest state of the single lead of `w4rows`. -/
def w4ls : LeadState :=
  { bot := "A", mobile_number := "1", date := 1, outcome := some "converted",
    contacted := 1, recording_url := "url" }

/-- Three attempts of bot A over two leads; bot B has no rows. -/
def w6rows : List NormRow :=
  [ { bot := "A", mobile_number := some "1", outcome := some "lost",
      contacted := 1, date := 1, recording_url := "u" }
  , { bot := "A", mobile_number := some "1", outcome := some "lost",
      contacted := 1, date := 2, recording_url := "u" }
  , { bot := "A", mobile_number := some "2", outcome := none,
      contacted := 0, date := 3, recording_url := "" } ]

/-- A raw dataset whose single row has a null mobile number and a parseable
date. -/
def c8CexRaws : List RawRow :=
  [ { bot := some "A", mobile_number := none, outcome := some "x",
      contacted := .num 0, date := .num 5, recording_url := some "" } ]

/-- A full-schema dataframe whose row would need contacted / bot /
recording_url coercion. -/
def c9CexDf : Df :=
  { cols := requiredCols
    rows := [ { bot := none, mobile_number := some "1", outcome := some " X ",
                contacted := .str "abc", date := .num 3, recording_url := none } ] }

/-- A full-schema one-row dataframe. -/
def w9df : Df :=
  { cols := requiredCols
    rows := [ { bot := some "B", mobile_number := some "2", outcome := some " Lost ",
                contacted := .num 1, date := .num 7, recording_url := some " u " } ] }

/-- A dataframe missing both the `outcome` and `date` columns. -/
def c1Df : Df :=
  { cols := ["bot", "mobile_number", "contacted", "recording_url"]
    rows := [ { bot := some "A", mobile_number := some "1", outcome := some "x",
                contacted := .num 1, date := .num 1, recording_url := some "" } ] }

section SortLemmas

variable {α : Type} (le : α → α → Bool)

theorem insertLe_perm (x : α) (l : List α) : List.Perm (insertLe le x l) (x :: l) := by
  induction l with
  | nil => simp [insertLe]
  | cons y ys ih =>
    simp only [insertLe]
    split
    · exact List.Perm.refl _
    · exact (ih.cons y).trans (List.Perm.swap x y ys)

theorem sortLe_perm (l : List α) : List.Perm (sortLe le l) l := by
  induction l with
  | nil => simp [sortLe]
  | cons x xs ih => exact (insertLe_perm le x _).trans (ih.cons x)

theorem mem_sortLe {a : α} {l : List α} : a ∈ sortLe le l ↔ a ∈ l :=
  (sortLe_perm le l).mem_iff

theorem length_sortLe (l : List α) : (sortLe le l).length = l.length :=
  (sortLe_perm le l).length_eq

theorem insertLe_eq_cons {x : α} {l : List α} (h : ∀ z ∈ l, le x z = true) :
    insertLe le x l = x :: l := by
  cases l with
  | nil => rfl
  | cons y ys => simp [insertLe, h y (by simp)]

theorem pairwise_insertLe
    (htot : ∀ a b, le a b = true ∨ le b a = true)
    (htrans : ∀ a b c, le a b = true → le b c = true → le a c = true)
    (x : α) {l : List α} (hl : l.Pairwise (fun a b => le a b = true)) :
    (insertLe le x l).Pairwise (fun a b => le a b = true) := by
  induction l with
  | nil => simp [insertLe]
  | cons y ys ih =>
    rw [List.pairwise_cons] at hl
    simp only [insertLe]
    split
    · rename_i hxy
      refine List.pairwise_cons.2 ⟨?_, List.pairwise_cons.2 hl⟩
      intro z hz
      rcases List.mem_cons.1 hz with hz | hz
      · exact hz ▸ hxy
      · exact htrans x y z hxy (hl.1 z hz)
    · rename_i hxy
      refine List.pairwise_cons.2 ⟨?_, ih hl.2⟩
      intro z hz
      rcases List.mem_cons.1 ((insertLe_perm le x ys).mem_iff.1 hz) with hz | hz
      · rw [hz]
        rcases htot x y with h | h
        · exact absurd h hxy
        · exact h
      · exact hl.1 z hz

theorem pairwise_sortLe
    (htot : ∀ a b, le a b = true ∨ le b a = true)
    (htrans : ∀ a b c, le a b = true → le b c = true → le a c = true)
    (l : List α) : (sortLe le l).Pairwise (fun a b => le a b = true) := by
  induction l with
  | nil => simp [sortLe]
  | cons x xs ih => exact pairwise_insertLe le htot htrans x ih

theorem filter_insertLe
    (htrans : ∀ a b c, le a b = true → le b c = true → le a c = true)
    (p : α → Bool) (x : α) {l : List α}
    (hl : l.Pairwise (fun a b => le a b = true)) :
    (insertLe le x l).filter p =
      if p x then insertLe le x (l.filter p) else l.filter p := by
  induction l with
  | nil => cases hpx : p x <;> simp [insertLe, List.filter, hpx]
  | cons y ys ih =>
    rw [List.pairwise_cons] at hl
    simp only [insertLe]
    split
    · rename_i hxy
      cases hpx : p x with
      | true =>
        have hcons : insertLe le x ((y :: ys).filter p) = x :: (y :: ys).filter p := by
          refine insertLe_eq_cons le ?_
          intro z hz
          have hzmem := List.mem_of_mem_filter hz
          rcases List.mem_cons.1 hzmem with hz1 | hz1
          · exact hz1 ▸ hxy
          · exact htrans x y z hxy (hl.1 z hz1)
        rw [hcons]
        simp [List.filter, hpx]
      | false => simp [List.filter, hpx]
    · rename_i hxy
      cases hpy : p y with
      | true =>
        cases hpx : p x with
        | true =>
          have h1 : (y :: insertLe le x ys).filter p = y :: (insertLe le x ys).filter p := by
            simp [List.filter, hpy]
          rw [h1, ih hl.2, hpx]
          have h2 : (y :: ys).filter p = y :: ys.filter p := by simp [List.filter, hpy]
          rw [h2]
          simp [insertLe, hxy, hpx]
        | false =>
          have h1 : (y :: insertLe le x ys).filter p = y :: (insertLe le x ys).filter p := by
            simp [List.filter, hpy]
          rw [h1, ih hl.2, hpx]
          simp [List.filter, hpy, hpx]
      | false =>
        have h1 : (y :: insertLe le x ys).filter p = (insertLe le x ys).filter p := by
          simp [List.filter, hpy]
        rw [h1, ih hl.2]
        simp [List.filter, hpy]

theorem filter_sortLe
    (htot : ∀ a b, le a b = true ∨ le b a = true)
    (htrans : ∀ a b c, le a b = true → le b c = true → le a c = true)
    (p : α → Bool) (l : List α) :
    (sortLe le l).filter p = sortLe le (l.filter p) := by
  induction l with
  | nil => simp [sortLe]
  | cons x xs ih =>
    simp only [sortLe]
    rw [filter_insertLe le htrans p x (pairwise_sortLe le htot htrans xs), ih]
    cases hpx : p x with
    | true => simp [List.filter, hpx, sortLe]
    | false => simp [List.filter, hpx]

theorem rel_getLast_of_pairwise {R : α → α → Prop} (hrefl : ∀ a, R a a)
    {l : List α} (hl : l.Pairwise R) (h : l ≠ []) :
    ∀ a ∈ l, R a (l.getLast h) := by
  induction l with
  | nil => exact absurd rfl h
  | cons x xs ih =>
    intro a ha
    cases xs with
    | nil =>
      rcases List.mem_singleton.1 ha with rfl
      exact hrefl a
    | cons y ys =>
      rw [List.getLast_cons (by simp)]
      rw [List.pairwise_cons] at hl
      rcases List.mem_cons.1 ha with rfl | ha
      · exact hl.1 _ (List.getLast_mem _)
      · exact ih hl.2 (by simp) a ha

end SortLemmas

section FilterMapLemmas

variable {α β : Type}

theorem length_filterMap_eq_length_filter (f : α → Option β) (l : List α) :
    (l.filterMap f).length = (l.filter (fun a => (f a).isSome)).length := by
  induction l with
  | nil => rfl
  | cons x xs ih =>
    cases hfx : f x <;>
      simp [List.filterMap_cons, hfx, List.filter_cons, ih]

theorem filterMap_filter_isSome (f : α → Option β) (l : List α) :
    (l.filter (fun a => (f a).isSome)).filterMap f = l.filterMap f := by
  induction l with
  | nil => rfl
  | cons x xs ih =>
    cases hfx : f x <;>
      simp [List.filterMap_cons, hfx, List.filter_cons, ih]

theorem map_filterMap_of_section {γ : Type} (f : α → Option β) (g : β → γ)
    (e : α → γ) {l : List α}
    (h : ∀ k ∈ l, ∃ s, f k = some s ∧ g s = e k) :
    (l.filterMap f).map g = l.map e := by
  induction l with
  | nil => rfl
  | cons x xs ih =>
    obtain ⟨s, hfs, hgs⟩ := h x (by simp)
    simp only [List.filterMap_cons, hfs, List.map_cons, hgs]
    exact congrArg _ (ih (fun k hk => h k (by simp [hk])))

end FilterMapLemmas

section StructureLemmas

theorem length_filter_add_length_filter_not {α : Type} (p : α → Bool) (l : List α) :
    (l.filter p).length + (l.filter (fun a => !(p a))).length = l.length := by
  induction l with
  | nil => rfl
  | cons x xs ih =>
    cases hpx : p x <;> simp [List.filter_cons, hpx] <;> omega

theorem pairOf_eq_some {r : NormRow} {k : String × String} :
    pairOf r = some k ↔ r.bot = k.1 ∧ r.mobile_number = some k.2 := by
  cases hm : r.mobile_number with
  | none => simp [pairOf, hm]
  | some m => simp [pairOf, hm, Prod.ext_iff]

theorem mem_groupKeys {rows : List NormRow} {k : String × String} :
    k ∈ groupKeys rows ↔ ∃ r ∈ rows, r.bot = k.1 ∧ r.mobile_number = some k.2 := by
  unfold groupKeys
  rw [mem_sortLe, List.mem_dedup, List.mem_filterMap]
  constructor
  · rintro ⟨r, hr, hpair⟩
    exact ⟨r, hr, pairOf_eq_some.1 hpair⟩
  · rintro ⟨r, hr, hbm⟩
    exact ⟨r, hr, pairOf_eq_some.2 hbm⟩

theorem groupKeys_nodup (rows : List NormRow) : (groupKeys rows).Nodup :=
  (sortLe_perm keyLeB _).symm.nodup (List.nodup_dedup _)

theorem groupRows_ne_nil {rows : List NormRow} {k : String × String}
    (hk : k ∈ groupKeys rows) : groupRows rows k ≠ [] := by
  obtain ⟨r, hr, hb, hm⟩ := mem_groupKeys.1 hk
  unfold groupRows
  intro hnil
  have hmem : r ∈ (sortLe dateLeB rows).filter
      (fun r => r.bot = k.1 ∧ r.mobile_number = some k.2) := by
    rw [List.mem_filter]
    exact ⟨(mem_sortLe _).2 hr, by simp [hb, hm]⟩
  rw [hnil] at hmem
  simp at hmem

theorem lastState_eq_some {k : String × String} {g : List NormRow} (h : g ≠ []) :
    lastState k g = some
      { bot := k.1
        mobile_number := k.2
        date := (g.getLast h).date
        outcome := (g.filterMap (fun r => r.outcome)).getLast?
        contacted := (g.getLast h).contacted
        recording_url := (g.getLast h).recording_url } := by
  unfold lastState
  rw [List.getLast?_eq_getLast _ h]

theorem latestPerLead_map_pair (rows : List NormRow) :
    (latestPerLead rows).map (fun ls => (ls.bot, ls.mobile_number)) = groupKeys rows := by
  unfold latestPerLead
  have h := map_filterMap_of_section
      (fun k => lastState k (groupRows rows k))
      (fun ls => (ls.bot, ls.mobile_number)) (fun k => k)
      (l := groupKeys rows) ?_
  · rw [h]
    simp
  · intro k hk
    have hne := groupRows_ne_nil hk
    exact ⟨_, lastState_eq_some hne, rfl⟩

theorem length_latestPerLead (rows : List NormRow) :
    (latestPerLead rows).length = (groupKeys rows).length := by
  rw [← latestPerLead_map_pair rows, List.length_map]

theorem mem_latestPerLead {rows : List NormRow} {ls : LeadState} :
    ls ∈ latestPerLead rows ↔
      ∃ k ∈ groupKeys rows, lastState k (groupRows rows k) = some ls :=
  List.mem_filterMap

theorem botLatest_map_pair (rows : List NormRow) (b : String) :
    (botLatest rows b).map (fun ls => (ls.bot, ls.mobile_number)) =
      (groupKeys rows).filter (fun k => k.1 = b) := by
  unfold botLatest
  rw [← latestPerLead_map_pair rows, List.filter_map]
  rfl

theorem botLatest_map_mobile (rows : List NormRow) (b : String) :
    (botLatest rows b).map (fun ls => ls.mobile_number) =
      ((groupKeys rows).filter (fun k => k.1 = b)).map Prod.snd := by
  rw [← botLatest_map_pair rows b, List.map_map]
  rfl

theorem keysb_snd_nodup (rows : List NormRow) (b : String) :
    (((groupKeys rows).filter (fun k => k.1 = b)).map Prod.snd).Nodup := by
  refine List.Nodup.map_on ?_ ((groupKeys_nodup rows).filter _)
  intro x hx y hy hxy
  have hxb := (List.mem_filter.1 hx).2
  have hyb := (List.mem_filter.1 hy).2
  simp only [decide_eq_true_eq] at hxb hyb
  exact Prod.ext (hxb.trans hyb.symm) hxy

theorem botLatest_mobiles_nodup (rows : List NormRow) (b : String) :
    ((botLatest rows b).map (fun ls => ls.mobile_number)).Nodup := by
  rw [botLatest_map_mobile]
  exact keysb_snd_nodup rows b

theorem flagCount_eq_length (rows : List NormRow) (b : String) (flag : LeadState → Bool) :
    flagCount rows b flag = ((botLatest rows b).filter flag).length := by
  unfold flagCount
  have hsub : (((botLatest rows b).filter flag).map (fun ls => ls.mobile_number)).Sublist
      ((botLatest rows b).map (fun ls => ls.mobile_number)) :=
    (List.filter_sublist _).map _
  have hnd := List.Nodup.sublist hsub (botLatest_mobiles_nodup rows b)
  rw [hnd.dedup, List.length_map]

theorem uniqueLeads_eq_length_botLatest (rows : List NormRow) (b : String) :
    uniqueLeads rows b = (botLatest rows b).length := by
  have hlen : (botLatest rows b).length =
      (((groupKeys rows).filter (fun k => k.1 = b)).map Prod.snd).length := by
    rw [List.length_map, ← botLatest_map_pair rows b, List.length_map]
  rw [hlen]
  unfold uniqueLeads
  refine List.Perm.length_eq ?_
  refine (List.perm_ext_iff_of_nodup (List.nodup_dedup _) (keysb_snd_nodup rows b)).2 ?_
  intro m
  rw [List.mem_dedup, List.mem_filterMap]
  constructor
  · rintro ⟨r, hr, hm⟩
    have hrrows := List.mem_filter.1 hr
    refine List.mem_map.2 ⟨(b, m), ?_, rfl⟩
    rw [List.mem_filter]
    refine ⟨mem_groupKeys.2 ⟨r, hrrows.1, ?_, hm⟩, by simp⟩
    have := hrrows.2
    simpa using this
  · intro hm
    obtain ⟨k, hk, hsnd⟩ := List.mem_map.1 hm
    have hkf := List.mem_filter.1 hk
    have hkb : k.1 = b := by simpa using hkf.2
    obtain ⟨r, hr, hrb, hrm⟩ := mem_groupKeys.1 hkf.1
    refine ⟨r, ?_, ?_⟩
    · unfold botAttempts
      rw [List.mem_filter]
      exact ⟨hr, by simp [hrb, hkb]⟩
    · rw [hrm, hsnd]

end StructureLemmas

section Helpers

theorem parseDateCell_coerce (c : Cell) :
    parseDateCell (coerceDateCell c) = parseDateCell c := by
  cases c <;> rfl

theorem notConnectedFlag_eq_not (ls : LeadState) :
    notConnectedFlag ls = !(connectedFlag ls) := by
  unfold connectedFlag notConnectedFlag
  by_cases h : ls.recording_url = "" <;> simp [h]

theorem connectedCount_add_notConnectedCount (rows : List NormRow) (b : String) :
    connectedCount rows b + notConnectedCount rows b = uniqueLeads rows b := by
  unfold connectedCount notConnectedCount
  rw [flagCount_eq_length, flagCount_eq_length, uniqueLeads_eq_length_botLatest]
  have hco : (botLatest rows b).filter notConnectedFlag =
      (botLatest rows b).filter (fun ls => !(connectedFlag ls)) :=
    List.filter_congr (fun ls _ => notConnectedFlag_eq_not ls)
  rw [hco, length_filter_add_length_filter_not]

theorem roundHalfEven_nonneg {x : ℚ} (hx : 0 ≤ x) : 0 ≤ roundHalfEven x := by
  have hf : (0 : ℤ) ≤ ⌊x⌋ := Int.floor_nonneg.2 hx
  unfold roundHalfEven
  split
  · exact hf
  · split
    · omega
    · split <;> omega

theorem roundHalfEven_le {x : ℚ} {n : ℤ} (hx : x ≤ (n : ℚ)) : roundHalfEven x ≤ n := by
  have hfl : ⌊x⌋ ≤ n := by
    have h := Int.floor_mono hx
    simpa using h
  unfold roundHalfEven
  split
  · exact hfl
  · rename_i h1
    push_neg at h1
    have hne : ⌊x⌋ ≠ n := by
      intro he
      have hfx : (↑⌊x⌋ : ℚ) ≤ x := Int.floor_le x
      rw [he] at hfx
      have hxn : x = (n : ℚ) := le_antisymm hx hfx
      rw [hxn, Int.floor_intCast] at h1
      norm_num at h1
    have hlt2 : ⌊x⌋ + 1 ≤ n := by omega
    split
    · exact hlt2
    · split
      · exact hfl
      · exact hlt2

theorem round2_nonneg {x : ℚ} (hx : 0 ≤ x) : 0 ≤ round2 x := by
  unfold round2
  have h := roundHalfEven_nonneg (x := x * 100) (by positivity)
  have h2 : (0 : ℚ) ≤ (roundHalfEven (x * 100) : ℚ) := by exact_mod_cast h
  exact div_nonneg h2 (by norm_num)

theorem dateLeB_total : ∀ a b : NormRow, dateLeB a b = true ∨ dateLeB b a = true := by
  intro a b
  unfold dateLeB
  rcases le_total a.date b.date with h | h
  · left; simpa using h
  · right; simpa using h

theorem dateLeB_trans :
    ∀ a b c : NormRow, dateLeB a b = true → dateLeB b c = true → dateLeB a c = true := by
  intro a b c hab hbc
  unfold dateLeB at hab hbc ⊢
  simp only [decide_eq_true_eq] at hab hbc ⊢
  exact le_trans hab hbc

theorem round2_le_one {x : ℚ} (hx : x ≤ 1) : round2 x ≤ 1 := by
  unfold round2
  have h : x * 100 ≤ ((100 : ℤ) : ℚ) := by push_cast; linarith
  have h2 := roundHalfEven_le h
  have h3 : (roundHalfEven (x * 100) : ℚ) ≤ 100 := by exact_mod_cast h2
  rw [div_le_one (by norm_num : (0 : ℚ) < 100)]
  exact h3

end Helpers

/-- C5: for every normalized dataset and every bot b, the connected and
not-connected latest-state lead counts partition the bot's unique leads:
connected_count(b) + not_connected_count(b) = unique_leads(b), where
unique_leads(b) counts the distinct mobile numbers among b's attempt rows. -/
theorem c5_connected_partition (rows : List NormRow) (b : String) :
    connectedCount rows b + notConnectedCount rows b = uniqueLeads rows b :=
  connectedCount_add_notConnectedCount rows b

/-- C6: when a bot has no unique leads both ratio metrics are 0 (no division
happens); when it has some, avg_attempts is total/unique rounded to two
decimals and connectivity is connected/unique rounded to two decimals, a
fraction lying in [0, 1] (not scaled by 100). -/
theorem c6_ratio_metrics (rows : List NormRow) (b : String) :
    (uniqueLeads rows b = 0 → avgAttempts rows b = 0 ∧ connectivityPct rows b = 0) ∧
    (0 < uniqueLeads rows b →
      avgAttempts rows b =
        round2 ((totalAttempts rows b : ℚ) / (uniqueLeads rows b : ℚ)) ∧
      connectivityPct rows b =
        round2 ((connectedCount rows b : ℚ) / (uniqueLeads rows b : ℚ)) ∧
      0 ≤ connectivityPct rows b ∧ connectivityPct rows b ≤ 1) := by
  constructor
  · intro h
    unfold avgAttempts connectivityPct
    simp [h]
  · intro h
    have hq : 0 ≤ (connectedCount rows b : ℚ) / (uniqueLeads rows b : ℚ) := by positivity
    have hcle : connectedCount rows b ≤ uniqueLeads rows b := by
      have hsum := connectedCount_add_notConnectedCount rows b
      omega
    have hq1 : (connectedCount rows b : ℚ) / (uniqueLeads rows b : ℚ) ≤ 1 := by
      rw [div_le_one (by exact_mod_cast h)]
      exact_mod_cast hcle
    refine ⟨?_, ?_, ?_, ?_⟩
    · unfold avgAttempts
      rw [if_pos h]
    · unfold connectivityPct
      rw [if_pos h]
    · unfold connectivityPct
      rw [if_pos h]
      exact round2_nonneg hq
    · unfold connectivityPct
      rw [if_pos h]
      exact round2_le_one hq1

/-- Witness for C6 at a concrete dataset: bot B (absent) hits the zero case,
bot A the positive case. -/
theorem c6_witness :
    (avgAttempts w6rows "B" = 0 ∧ connectivityPct w6rows "B" = 0) ∧
    (avgAttempts w6rows "A" =
        round2 ((totalAttempts w6rows "A" : ℚ) / (uniqueLeads w6rows "A" : ℚ)) ∧
      connectivityPct w6rows "A" =
        round2 ((connectedCount w6rows "A" : ℚ) / (uniqueLeads w6rows "A" : ℚ)) ∧
      0 ≤ connectivityPct w6rows "A" ∧ connectivityPct w6rows "A" ≤ 1) :=
  ⟨(c6_ratio_metrics w6rows "B").1 (by decide),
   (c6_ratio_metrics w6rows "A").2 (by decide)⟩

/-- C7: the summary matrix has exactly ten metric rows, in the fixed order
with these exact label strings, and every row's column list equals the sorted
distinct bot names of the normalized dataset. -/
theorem c7_summary_layout (rows : List NormRow) :
    (summaryReport rows).map (fun m => m.1) =
      ["Unique leads", "Total Attempts", "Avg Attempts", "Connected",
       "Connectivity % :", "Not Connected", "Follow Up",
       "Assigned to human agent", "Lost", "Converted"] ∧
    (summaryReport rows).map (fun m => m.2.map (fun c => c.1)) =
      List.replicate 10 (allBots rows) ∧
    (allBots rows).Nodup ∧
    (allBots rows).Pairwise (fun a b => a ≤ b) := by
  have hcells : ∀ f, (metricCells rows f).map (fun c => c.1) = allBots rows := by
    intro f
    unfold metricCells
    rw [List.map_map]
    exact List.map_id' (allBots rows)
  refine ⟨rfl, ?_, ?_, ?_⟩
  · simp only [summaryReport, List.map_cons, List.map_nil, hcells]
    rfl
  · unfold allBots
    exact (sortLe_perm strLeB _).symm.nodup (List.nodup_dedup _)
  · have htot : ∀ a b : String, strLeB a b = true ∨ strLeB b a = true := by
      intro a b
      unfold strLeB
      rcases le_total a b with h | h
      · left; simpa using h
      · right; simpa using h
    have htrans : ∀ a b c : String,
        strLeB a b = true → strLeB b c = true → strLeB a c = true := by
      intro a b c hab hbc
      unfold strLeB at hab hbc ⊢
      simp only [decide_eq_true_eq] at hab hbc ⊢
      exact le_trans hab hbc
    have hp := pairwise_sortLe strLeB htot htrans ((rows.map (fun r => r.bot)).dedup)
    unfold allBots
    exact hp.imp (fun hab => by simpa [strLeB] using hab)

/-- C4: for every derived latest-state record, exactly one of connected /
not-connected holds (connected iff the normalized recording_url is
non-empty), at most one of converted / lost / assigned-to-agent holds, and
follow_up holds iff the outcome is none of the three terminal outcomes. -/
theorem c4_flag_invariants (rows : List NormRow) (ls : LeadState)
    (h : ls ∈ latestPerLead rows) :
    ((connectedFlag ls = true ∧ notConnectedFlag ls = false) ∨
      (connectedFlag ls = false ∧ notConnectedFlag ls = true)) ∧
    (connectedFlag ls = true ↔ ls.recording_url ≠ "") ∧
    (¬ (convertedFlag ls = true ∧ lostFlag ls = true)) ∧
    (¬ (convertedFlag ls = true ∧ assignedFlag ls = true)) ∧
    (¬ (lostFlag ls = true ∧ assignedFlag ls = true)) ∧
    (followUpFlag ls = true ↔
      ¬ (ls.outcome = some "assign to live agent" ∨ ls.outcome = some "converted" ∨
          ls.outcome = some "lost")) := by
  refine ⟨?_, ?_, ?_, ?_, ?_, ?_⟩
  · by_cases hurl : ls.recording_url = ""
    · right
      simp [connectedFlag, notConnectedFlag, hurl]
    · left
      simp [connectedFlag, notConnectedFlag, hurl]
  · simp [connectedFlag]
  · rintro ⟨h1, h2⟩
    simp only [convertedFlag, decide_eq_true_eq] at h1
    simp only [lostFlag, decide_eq_true_eq] at h2
    rw [h1] at h2
    simp at h2
  · rintro ⟨h1, h2⟩
    simp only [convertedFlag, decide_eq_true_eq] at h1
    simp only [assignedFlag, decide_eq_true_eq] at h2
    rw [h1] at h2
    simp at h2
  · rintro ⟨h1, h2⟩
    simp only [lostFlag, decide_eq_true_eq] at h1
    simp only [assignedFlag, decide_eq_true_eq] at h2
    rw [h1] at h2
    simp at h2
  · simp only [followUpFlag, followUpExclude, List.mem_cons, List.mem_singleton,
      List.not_mem_nil, or_false, decide_eq_true_eq]

/-- Witness for C4 at a concrete one-lead dataset. -/
theorem c4_witness :
    w4ls ∈ latestPerLead w4rows ∧
    (connectedFlag w4ls = true ↔ w4ls.recording_url ≠ "") :=
  ⟨by decide, (c4_flag_invariants w4rows w4ls (by decide)).2.1⟩

theorem getLast?_cons_of_ne_nil {α : Type} {l : List α} (h : l ≠ []) (a : α) :
    (a :: l).getLast? = l.getLast? := by
  cases l with
  | nil => exact absurd rfl h
  | cons b t => exact List.getLast?_cons_cons

theorem getLast?_filterMap_of_getLast? {α β : Type} (f : α → Option β) :
    ∀ (l : List α) (w : α) (s : β), l.getLast? = some w → f w = some s →
      (l.filterMap f).getLast? = some s := by
  intro l
  induction l with
  | nil => intro w s hw; simp at hw
  | cons x xs ih =>
    intro w s hw hs
    cases xs with
    | nil =>
      simp only [List.getLast?_singleton, Option.some.injEq] at hw
      rw [← hw] at hs
      simp [List.filterMap_cons, hs]
    | cons y ys =>
      rw [List.getLast?_cons_cons] at hw
      have hih := ih w s hw hs
      rw [List.filterMap_cons]
      cases hfx : f x with
      | none => simpa using hih
      | some b =>
        have hnil : (y :: ys).filterMap f ≠ [] := by
          intro h0
          rw [h0] at hih
          simp at hih
        simp only []
        rw [getLast?_cons_of_ne_nil hnil b]
        exact hih

theorem normalizePipeline_eq (raws : List RawRow) :
    normalizePipeline raws = raws.filterMap (fun r =>
      (parseDateCell r.date).map (fun t =>
        ({ bot := r.bot.getD "Blank_Bot_Name"
           mobile_number := r.mobile_number
           outcome := r.outcome.map normStr
           contacted := (parseIntCell r.contacted).getD 0
           date := t
           recording_url := (r.recording_url.getD "").trim } : NormRow))) := by
  unfold normalizePipeline normRows coerceDates step7
  rw [List.map_map, List.filterMap_map]
  refine List.filterMap_congr ?_
  intro r _
  simp only [Function.comp]
  rw [parseDateCell_coerce]

/-- C8 counterexample: the normalized form of `c8CexRaws` is one row whose
mobile_number is null; latest_per_lead has zero rows while the normalized
dataset has one distinct (bot, mobile_number) pair. -/
theorem c8_counterexample :
    (latestPerLead (normalizePipeline c8CexRaws)).length = 0 ∧
    ((normalizePipeline c8CexRaws).map (fun r => (r.bot, r.mobile_number))).dedup.length
      = 1 := by
  decide

/-- C8 (amended): normalization drops exactly the rows whose date does not
parse, and the number of latest-per-lead rows equals the number of distinct
(bot, mobile_number) pairs with non-null mobile_number in the normalized
dataset (rows with a null mobile_number yield no LatestLeadState). -/
theorem c8_amended_latest_count (raws : List RawRow) :
    (normalizePipeline raws).length =
      (raws.filter (fun r => (parseDateCell r.date).isSome)).length ∧
    (latestPerLead (normalizePipeline raws)).length =
      ((normalizePipeline raws).filterMap pairOf).dedup.length := by
  constructor
  · rw [normalizePipeline_eq, length_filterMap_eq_length_filter]
    refine congrArg List.length (List.filter_congr ?_)
    intro r _
    cases hp : parseDateCell r.date <;> simp [hp]
  · rw [length_latestPerLead]
    unfold groupKeys
    rw [length_sortLe]

/-- C3 counterexample: a row with an empty-string (non-null) bot keeps bot ""
after normalization and aggregates under the empty-string column, not under
the sentinel. -/
theorem c3_counterexample :
    (normalizePipeline c3CexRaws).map (fun r => r.bot) = [""] ∧
    allBots (normalizePipeline c3CexRaws) = [""] ∧
    ("" : String) ≠ "Blank_Bot_Name" := by
  decide

/-- C3 (amended): among the rows surviving the date parse, exactly the rows
whose bot is null get the sentinel "Blank_Bot_Name"; any non-null bot string,
including the empty string, is kept unchanged. -/
theorem c3_amended_bot_fillna (raws : List RawRow) :
    (normalizePipeline raws).map (fun r => r.bot) =
      (raws.filter (fun r => (parseDateCell r.date).isSome)).map
        (fun r => r.bot.getD "Blank_Bot_Name") := by
  rw [normalizePipeline_eq]
  induction raws with
  | nil => rfl
  | cons r rs ih =>
    rw [List.filterMap_cons, List.filter_cons]
    cases hp : parseDateCell r.date with
    | none => simpa [hp] using ih
    | some t => simp [hp, ih]

/-- C2 counterexample: in `c2CexRows` the lone lead's two attempts carry
distinct timestamps 1 and 2, and the max-timestamp attempt has a null
outcome, yet the derived latest record carries outcome "lost" backfilled from
the earlier attempt, so the record does not equal the winning attempt. -/
theorem c2_counterexample :
    latestPerLead c2CexRows =
      [{ bot := "A", mobile_number := "p", date := 2, outcome := some "lost",
         contacted := 0, recording_url := "" }] ∧
    c2CexRows.map (fun r => r.date) = [1, 2] ∧
    c2CexRows.map (fun r => r.outcome) = [some "lost", none] := by
  decide

/-- C2 (amended): every derived latest record takes its key, its date, its
contacted value and its recording_url from the final row of its group in the
reduction ordering (sorted ascending by date, so that row has the maximum
timestamp, and an exact tie resolves to the row last in that ordering); its
outcome equals the winning row's outcome whenever that outcome is non-null
(otherwise it is backfilled from the most recent non-null outcome). -/
theorem c2_amended_latest_state (rows : List NormRow) (ls : LeadState)
    (h : ls ∈ latestPerLead rows) :
    ∃ hne : groupRows rows (ls.bot, ls.mobile_number) ≠ [],
      (∀ r ∈ groupRows rows (ls.bot, ls.mobile_number),
          r.date ≤ ((groupRows rows (ls.bot, ls.mobile_number)).getLast hne).date) ∧
      ls.date = ((groupRows rows (ls.bot, ls.mobile_number)).getLast hne).date ∧
      ls.contacted = ((groupRows rows (ls.bot, ls.mobile_number)).getLast hne).contacted ∧
      ls.recording_url =
        ((groupRows rows (ls.bot, ls.mobile_number)).getLast hne).recording_url ∧
      (∀ s : String,
        ((groupRows rows (ls.bot, ls.mobile_number)).getLast hne).outcome = some s →
          ls.outcome = some s) := by
  obtain ⟨k, hk, heq⟩ := mem_latestPerLead.1 h
  have hne := groupRows_ne_nil hk
  rw [lastState_eq_some hne] at heq
  have hrec := Option.some.inj heq
  have hbot : ls.bot = k.1 := by rw [← hrec]
  have hmob : ls.mobile_number = k.2 := by rw [← hrec]
  have hkey : (ls.bot, ls.mobile_number) = k := Prod.ext hbot hmob
  rw [hkey]
  refine ⟨hne, ?_, ?_, ?_, ?_, ?_⟩
  · have htotD : ∀ a b : NormRow, dateLeB a b = true ∨ dateLeB b a = true := by
      intro a b
      unfold dateLeB
      rcases le_total a.date b.date with hab | hab
      · left; simpa using hab
      · right; simpa using hab
    have hpw : (sortLe dateLeB rows).Pairwise (fun a b => dateLeB a b = true) :=
      pairwise_sortLe dateLeB htotD
        (fun a b c hab hbc => by
          unfold dateLeB at hab hbc ⊢
          simp only [decide_eq_true_eq] at hab hbc ⊢
          exact le_trans hab hbc) rows
    have hpf : (groupRows rows k).Pairwise (fun a b => dateLeB a b = true) := by
      unfold groupRows
      exact hpw.filter _
    intro r hr
    have hrel := rel_getLast_of_pairwise (R := fun a b => dateLeB a b = true)
      (fun a => by simp [dateLeB]) hpf hne r hr
    simpa [dateLeB] using hrel
  · rw [← hrec]
  · rw [← hrec]
  · rw [← hrec]
  · intro s hs
    rw [← hrec]
    show ((groupRows rows k).filterMap (fun r => r.outcome)).getLast? = some s
    exact getLast?_filterMap_of_getLast? (fun r => r.outcome) (groupRows rows k)
      ((groupRows rows k).getLast hne) s (List.getLast?_eq_getLast _ hne) hs

/-- C10: rows whose mobile_number is null are counted in the bot's
total_attempts (first conjunct: the difference is exactly the null-mobile
rows), but are invisible to the latest-per-lead grouping: the reduced table,
all seven category tables (functions of it), unique_leads, and every per-bot
flag count are unchanged when such rows are removed. -/
theorem c10_null_mobile_rows (rows : List NormRow) (b : String) :
    totalAttempts rows b =
      totalAttempts (rows.filter (fun r => r.mobile_number.isSome)) b +
        (rows.filter (fun r => r.bot = b ∧ r.mobile_number = none)).length ∧
    latestPerLead rows = latestPerLead (rows.filter (fun r => r.mobile_number.isSome)) ∧
    sheetsByCategory rows = sheetsByCategory (rows.filter (fun r => r.mobile_number.isSome)) ∧
    uniqueLeads rows b = uniqueLeads (rows.filter (fun r => r.mobile_number.isSome)) b ∧
    connectedCount rows b =
      connectedCount (rows.filter (fun r => r.mobile_number.isSome)) b ∧
    notConnectedCount rows b =
      notConnectedCount (rows.filter (fun r => r.mobile_number.isSome)) b ∧
    followUpCount rows b = followUpCount (rows.filter (fun r => r.mobile_number.isSome)) b ∧
    assignedCount rows b = assignedCount (rows.filter (fun r => r.mobile_number.isSome)) b ∧
    lostCount rows b = lostCount (rows.filter (fun r => r.mobile_number.isSome)) b ∧
    convertedCount rows b =
      convertedCount (rows.filter (fun r => r.mobile_number.isSome)) b := by
  have hnn : rows.filter (fun r => r.mobile_number.isSome) =
      rows.filter (fun r => (pairOf r).isSome) :=
    List.filter_congr (fun r _ => by cases hm : r.mobile_number <;> simp [pairOf, hm])
  have hpair : (rows.filter (fun r => r.mobile_number.isSome)).filterMap pairOf =
      rows.filterMap pairOf := by
    rw [hnn]
    exact filterMap_filter_isSome pairOf rows
  have hkeys : groupKeys (rows.filter (fun r => r.mobile_number.isSome)) = groupKeys rows := by
    unfold groupKeys
    rw [hpair]
  have hgroups : ∀ k, groupRows (rows.filter (fun r => r.mobile_number.isSome)) k =
      groupRows rows k := by
    intro k
    unfold groupRows
    rw [← filter_sortLe dateLeB dateLeB_total dateLeB_trans _ rows, List.filter_filter]
    exact List.filter_congr (fun r _ => by cases hm : r.mobile_number <;> simp [hm])
  have hlatest : latestPerLead rows =
      latestPerLead (rows.filter (fun r => r.mobile_number.isSome)) := by
    unfold latestPerLead
    rw [hkeys]
    exact List.filterMap_congr (fun k _ => by rw [hgroups k])
  refine ⟨?_, hlatest, ?_, ?_, ?_, ?_, ?_, ?_, ?_, ?_⟩
  · have hsp := length_filter_add_length_filter_not
      (fun r => r.mobile_number.isSome) (botAttempts rows b)
    have h1 : totalAttempts (rows.filter (fun r => r.mobile_number.isSome)) b =
        ((botAttempts rows b).filter (fun r => r.mobile_number.isSome)).length := by
      unfold totalAttempts botAttempts
      rw [List.filter_comm]
    have h2 : (rows.filter (fun r => r.bot = b ∧ r.mobile_number = none)).length =
        ((botAttempts rows b).filter (fun r => !(r.mobile_number.isSome))).length := by
      unfold botAttempts
      rw [List.filter_filter]
      refine congrArg List.length (List.filter_congr ?_)
      intro r _
      cases hm : r.mobile_number <;> simp [hm]
    rw [h1, h2]
    unfold totalAttempts
    omega
  · unfold sheetsByCategory
    rw [hlatest]
  · unfold uniqueLeads botAttempts
    rw [List.filter_comm,
      filterMap_filter_isSome (fun r => r.mobile_number) (rows.filter (fun r => r.bot = b))]
  · unfold connectedCount flagCount botLatest
    rw [hlatest]
  · unfold notConnectedCount flagCount botLatest
    rw [hlatest]
  · unfold followUpCount flagCount botLatest
    rw [hlatest]
  · unfold assignedCount flagCount botLatest
    rw [hlatest]
  · unfold lostCount flagCount botLatest
    rw [hlatest]
  · unfold convertedCount flagCount botLatest
    rw [hlatest]

/-- Witness for C2 (amended) at a one-attempt dataset. -/
theorem c2_witness :
    (w2ls ∈ latestPerLead w2rows) ∧
    groupRows w2rows (w2ls.bot, w2ls.mobile_number) ≠ [] := by
  have hmem : w2ls ∈ latestPerLead w2rows := by decide
  obtain ⟨hne, -⟩ := c2_amended_latest_state w2rows w2ls hmem
  exact ⟨hmem, hne⟩

/-- C9 counterexample: on the full-schema dataframe `c9CexDf` the caller's
frame after the call has outcome normalized but contacted still the
unparseable string "abc" (not the coerced 0), bot still null (not the
sentinel) and recording_url still null (not ""): the contacted / bot /
recording_url coercions never reach the caller. -/
theorem c9_counterexample :
    (calculateReport c9CexDf).1.rows.map (fun r => r.contacted) = [Cell.str "abc"] ∧
    Cell.str "abc" ≠ Cell.num 0 ∧
    (calculateReport c9CexDf).1.rows.map (fun r => r.bot) = [none] ∧
    (calculateReport c9CexDf).1.rows.map (fun r => r.recording_url) = [none] := by
  decide

/-- C9 (amended): calculate_report mutates the caller's dataframe, but only
two columns ever reach it: outcome is trimmed and lower-cased whenever the
column exists (even when validation then fails), and date is coerced exactly
when validation passes; contacted, bot, mobile_number and recording_url are
never changed in the caller's frame, because the date dropna rebinds the
local name to a fresh frame before those coercions run. -/
theorem c9_amended_caller_mutation (df : Df) :
    (calculateReport df).1.cols = df.cols ∧
    (calculateReport df).1.rows.map (fun r => r.contacted) =
      df.rows.map (fun r => r.contacted) ∧
    (calculateReport df).1.rows.map (fun r => r.bot) = df.rows.map (fun r => r.bot) ∧
    (calculateReport df).1.rows.map (fun r => r.mobile_number) =
      df.rows.map (fun r => r.mobile_number) ∧
    (calculateReport df).1.rows.map (fun r => r.recording_url) =
      df.rows.map (fun r => r.recording_url) ∧
    ("outcome" ∈ df.cols →
      (calculateReport df).1.rows.map (fun r => r.outcome) =
        df.rows.map (fun r => r.outcome.map normStr)) ∧
    ("outcome" ∉ df.cols → (calculateReport df).1 = df) ∧
    ("outcome" ∈ df.cols → requiredCols.filter (fun c => ¬ c ∈ df.cols) = [] →
      (calculateReport df).1.rows.map (fun r => r.date) =
        df.rows.map (fun r => coerceDateCell r.date)) ∧
    ("outcome" ∈ df.cols → requiredCols.filter (fun c => ¬ c ∈ df.cols) ≠ [] →
      (calculateReport df).1.rows.map (fun r => r.date) = df.rows.map (fun r => r.date)) := by
  by_cases ho : "outcome" ∈ df.cols
  · by_cases hm : requiredCols.filter (fun c => ¬ c ∈ df.cols) = []
    · have hcr : (calculateReport df).1 = { df with rows := coerceDates (step7 df.rows) } := by
        simp only [calculateReport]
        rw [if_pos ho, if_pos hm]
      rw [hcr]
      refine ⟨rfl, ?_, ?_, ?_, ?_, ?_, ?_, ?_, ?_⟩
      · unfold coerceDates step7
        rw [List.map_map, List.map_map]
        rfl
      · unfold coerceDates step7
        rw [List.map_map, List.map_map]
        rfl
      · unfold coerceDates step7
        rw [List.map_map, List.map_map]
        rfl
      · unfold coerceDates step7
        rw [List.map_map, List.map_map]
        rfl
      · intro _
        unfold coerceDates step7
        rw [List.map_map, List.map_map]
        rfl
      · intro hno
        exact absurd ho hno
      · intro _ _
        unfold coerceDates step7
        rw [List.map_map, List.map_map]
        rfl
      · intro _ hne
        exact absurd hm hne
    · have hcr : (calculateReport df).1 = { df with rows := step7 df.rows } := by
        simp only [calculateReport]
        rw [if_pos ho, if_neg hm]
      rw [hcr]
      refine ⟨rfl, ?_, ?_, ?_, ?_, ?_, ?_, ?_, ?_⟩
      · unfold step7
        rw [List.map_map]
        rfl
      · unfold step7
        rw [List.map_map]
        rfl
      · unfold step7
        rw [List.map_map]
        rfl
      · unfold step7
        rw [List.map_map]
        rfl
      · intro _
        unfold step7
        rw [List.map_map]
        rfl
      · intro hno
        exact absurd ho hno
      · intro _ hmm
        exact absurd hmm hm
      · intro _ _
        unfold step7
        rw [List.map_map]
        rfl
  · have hcr : (calculateReport df).1 = df := by
      simp only [calculateReport]
      rw [if_neg ho]
    rw [hcr]
    exact ⟨rfl, rfl, rfl, rfl, rfl, fun hyes => absurd hyes ho, fun _ => rfl,
      fun hyes _ => absurd hyes ho, fun hyes _ => absurd hyes ho⟩

/-- Witness for C9 (amended) at a full-schema one-row dataframe. -/
theorem c9_witness :
    ("outcome" ∈ w9df.cols) ∧
    (requiredCols.filter (fun c => ¬ c ∈ w9df.cols) = []) ∧
    (calculateReport w9df).1.rows.map (fun r => r.outcome) =
      w9df.rows.map (fun r => r.outcome.map normStr) ∧
    (calculateReport w9df).1.rows.map (fun r => r.date) =
      w9df.rows.map (fun r => coerceDateCell r.date) := by
  have h := c9_amended_caller_mutation w9df
  exact ⟨by decide, by decide,
    h.2.2.2.2.2.1 (by decide),
    h.2.2.2.2.2.2.2.1 (by decide) (by decide)⟩

/-- C1 (code bug): on a dataframe missing the outcome and date columns the
code fails at line 7 (`df[outcome] = ...`) with a KeyError for "outcome"
before the schema check of lines 8-12 runs, instead of reporting a schema
error naming every missing column (here both "outcome" and "date"); the
outcome normalization is likewise placed before the validation the spec
requires to come first. -/
theorem c1_missing_outcome_keyerror :
    calculateReport c1Df = (c1Df, .error (.keyError "outcome")) ∧
    requiredCols.filter (fun c => ¬ c ∈ c1Df.cols) = ["outcome", "date"] :=
  ⟨rfl, rfl⟩

end CallReport
